import Mathlib

/-!
# Verification of the gen_ai_bot repository against its specification

This file gives a shallow embedding, in Lean 4, of the parts of the
repository that the specification's claims talk about, and proves (or
refutes) each claim.

The repository's checked-in code consists of the landing-page frontend
(`src/frontend/...`), a README, an architecture/roadmap document
(`src/mvp/MVP_ANALYSIS.md`) and a shell scenario script
(`src/mvp/tests/proof.sh`).  The memory-and-routing pipeline that most of
the specification describes is not present as code in the repository, so
those components are modelled here directly from the specification's
words (each such definition is marked `Modelled from the spec:`); the
frontend components (`FlipWords`, `BentoGridSection`) are embedded from
their TypeScript source.
-/

/-! ## Frontend: FlipWords (src/frontend/src/app/(public)/_components/home/hero-section.tsx)

The component keeps two pieces of React state, `currentIndex` and
`currentWord`; a `setInterval` callback fires every 3000 ms and runs
  nextIndex = (currentIndex + 1) % words.length;
  setCurrentIndex(nextIndex);
  setCurrentWord(words[nextIndex]);
We embed the state, the initial state (`useState(words[0])`,
`useState(0)`) and one timer tick as a pure transition function.
-/

namespace HeroSection

structure FlipWordsState where
  currentIndex : Nat
  currentWord : Option String
  deriving Repr, DecidableEq

/-- Initial React state of `FlipWords`: `useState(words[0])`, `useState(0)`. -/
def flipWordsInit (words : List String) : FlipWordsState :=
  ⟨0, words[0]?⟩

/-- One firing of the `setInterval` callback in `FlipWords`. -/
def flipWordsTick (words : List String) (s : FlipWordsState) : FlipWordsState :=
  let nextIndex := (s.currentIndex + 1) % words.length
  ⟨nextIndex, words[nextIndex]?⟩

/-- The component state after `n` timer ticks. -/
def flipWordsRun (words : List String) : Nat → FlipWordsState
  | 0 => flipWordsInit words
  | n + 1 => flipWordsTick words (flipWordsRun words n)

end HeroSection

/-! ## Frontend: BentoGridSection (src/frontend/src/app/(public)/_components/home/bento-grid.tsx)

The `features` array is a literal list of five records; `BentoGridSection`
renders `features.map((feature, idx) => <BentoCard key={idx} title=...
description=... icon=... className=... />)`.  Icons are embedded as the
lucide icon name together with the class string given to it in the JSX.
-/

namespace BentoGrid

structure IconNode where
  iconName : String
  iconClass : String
  deriving Repr, DecidableEq

structure Feature where
  title : String
  description : String
  icon : IconNode
  className : String
  deriving Repr, DecidableEq

/-- Props handed to one `BentoCard` element. -/
structure BentoCardProps where
  title : String
  description : String
  icon : IconNode
  className : String
  deriving Repr, DecidableEq

/-- The `features` array literal of `bento-grid.tsx`. -/
def features : List Feature :=
  [ ⟨"Second Brain",
     "Store, organize, and recall any piece of information instantly. Your digital memory, upgraded.",
     ⟨"Brain", "h-6 w-6 text-pink-400"⟩, "md:col-span-2"⟩,
    ⟨"Deep Search",
     "Search across your files, apps, and the web simultaneously.",
     ⟨"Search", "h-6 w-6 text-blue-400"⟩, "md:col-span-1"⟩,
    ⟨"Code Intelligence",
     "Generate, debug, and explain code in any language with context-aware AI.",
     ⟨"Code", "h-6 w-6 text-green-400"⟩, "md:col-span-1"⟩,
    ⟨"Instant Sync",
     "Real-time synchronization across all your devices.",
     ⟨"Zap", "h-6 w-6 text-yellow-400"⟩, "md:col-span-2"⟩,
    ⟨"Secure by Design",
     "Enterprise-grade encryption for all your personal data.",
     ⟨"ShieldCheck", "h-6 w-6 text-purple-400"⟩, "md:col-span-3"⟩ ]

/-- The list of `BentoCard` elements rendered by `BentoGridSection`:
`features.map((feature, idx) => BentoCard(title, description, icon, className))`. -/
def bentoGridCards : List BentoCardProps :=
  features.map (fun f => ⟨f.title, f.description, f.icon, f.className⟩)

end BentoGrid

/-! ## The memory-and-routing pipeline

None of the following components exists as code in the repository; every
definition in the `Pipeline` namespace is modelled from the specification
(§3 Data model, §4 Component design, §5 Concurrency, §7 Error handling).
-/

namespace Pipeline

/-- Modelled from the spec: a Turn — one user message + one generated
response, owned by a session (§3).  The missing backend's Turn record. -/
structure Turn where
  sessionId : String
  content : String
  deriving Repr, DecidableEq

/-- Modelled from the spec: a semantic fact about a user, as handed to
`upsertFact` (§3 MemoryFact).  The missing backend's fact payload. -/
structure MemoryFact where
  key : String
  value : String
  deriving Repr, DecidableEq

/-- Modelled from the spec: a stored fact record — append-only, superseded
(not deleted) by later contradicting facts, with a supersession pointer
(§3, §4.4).  `seq` is the append position (recency); `supersededBy` points
at the record that superseded this one, if any. -/
structure FactRecord where
  userId : String
  key : String
  value : String
  seq : Nat
  supersededBy : Option Nat
  deriving Repr, DecidableEq

/-- Modelled from the spec: a vectorized representation of a past Turn,
owned by a user id, for cross-session recall (§3 EpisodicRecord). -/
structure EpisodicRecord where
  userId : String
  content : String
  embedding : List Int
  deriving Repr, DecidableEq

/-- Modelled from the spec: the Memory Store Adapter's three tiers behind
one facade (§4.4, §9): per-session short-term buffers, the append-only
fact store, the vector-indexed episodic store. -/
structure MemoryStore where
  shortTerm : String → List Turn
  facts : List FactRecord
  episodic : List EpisodicRecord

def emptyStore : MemoryStore := ⟨fun _ => [], [], []⟩

/-- Modelled from the spec: the buffer-level step of
`appendShortTerm(sessionId, turn)` — append the new turn, then evict in
strict insertion order (oldest first) while over the configured cap
(§3 ShortTermBuffer, §4.4). -/
def bufferAppend (cap : Nat) (buf : List Turn) (t : Turn) : List Turn :=
  let grown := buf ++ [t]
  if cap < grown.length then grown.drop (grown.length - cap) else grown

/-- Modelled from the spec: `appendShortTerm(sessionId, turn)` (evicts
oldest if over cap), scoped to one session (§4.4). -/
def appendShortTerm (cap : Nat) (s : MemoryStore) (sessionId : String) (t : Turn) :
    MemoryStore :=
  { s with shortTerm := fun sid =>
      if sid = sessionId then bufferAppend cap (s.shortTerm sid) t else s.shortTerm sid }

/-- Modelled from the spec: `getShortTerm(sessionId) -> ordered recent turns` (§4.4). -/
def getShortTerm (s : MemoryStore) (sessionId : String) : List Turn :=
  s.shortTerm sessionId

/-- Modelled from the spec: marking step of supersession — a current record
of the same user and factual key receives a supersession pointer to the
new record; nothing else about it changes (§3, §4.4). -/
def markSuperseded (u k : String) (n : Nat) (r : FactRecord) : FactRecord :=
  if r.userId == u && r.key == k && r.supersededBy.isNone then
    { r with supersededBy := some n }
  else r

/-- Modelled from the spec: `upsertFact(userId, fact)` — append-only with
supersession pointer, not destructive update (§4.4). -/
def upsertFact (s : MemoryStore) (u : String) (f : MemoryFact) : MemoryStore :=
  { s with facts :=
      s.facts.map (markSuperseded u f.key s.facts.length) ++
        [⟨u, f.key, f.value, s.facts.length, none⟩] }

/-- Modelled from the spec: `getFacts(userId) -> set of current facts` —
the non-superseded records of that user (§4.4). -/
def getFacts (s : MemoryStore) (u : String) : List FactRecord :=
  s.facts.filter (fun r => r.userId == u && r.supersededBy.isNone)

/-- The current (non-superseded) values `getFacts` yields for one factual key. -/
def currentValuesFor (s : MemoryStore) (u k : String) : List String :=
  ((getFacts s u).filter (fun r => r.key == k)).map (fun r => r.value)

/-- One recorded call to `upsertFact`. -/
structure UpsertCall where
  userId : String
  fact : MemoryFact
  deriving Repr, DecidableEq

/-- Replaying a history of `upsertFact` calls against the empty store. -/
def applyUpserts (ups : List UpsertCall) : MemoryStore :=
  ups.foldl (fun st c => upsertFact st c.userId c.fact) emptyStore

/-- The value of the most recent upsert of a given user and key in a call
history, if any. -/
def lastUpsertValue (ups : List UpsertCall) (u k : String) : Option String :=
  ((ups.filter (fun c => c.userId == u && c.fact.key == k)).map
      (fun c => c.fact.value)).getLast?

/-- Modelled from the spec: similarity score of two embeddings (dot product). -/
def similarity (q e : List Int) : Int :=
  (List.zipWith (fun a b => a * b) q e).sum

/-- Insert an item into a score-descending ranked list. -/
def insertRanked {α : Type} (score : α → Int) (r : α) : List α → List α
  | [] => [r]
  | x :: xs => if score x < score r then r :: x :: xs else x :: insertRanked score r xs

/-- Deterministic ranking by descending score (insertion sort — no
randomness, so identical inputs always rank identically). -/
def rankByScore {α : Type} (score : α → Int) : List α → List α
  | [] => []
  | x :: xs => insertRanked score x (rankByScore score xs)

/-- Modelled from the spec: `searchEpisodic(userId, queryEmbedding, k) ->
ranked records` — similarity search structurally scoped to the owner id:
the query filters by owner id before ranking (§4.4). -/
def searchEpisodic (s : MemoryStore) (u : String) (queryEmbedding : List Int) (k : Nat) :
    List EpisodicRecord :=
  (rankByScore (fun r => similarity queryEmbedding r.embedding)
      (s.episodic.filter (fun r => r.userId == u))).take k

/-- Modelled from the spec: `indexEpisodic(userId, turn)` — one immutable
record per turn, created at persistence time (§3, §4.4). -/
def indexEpisodic (s : MemoryStore) (u : String) (t : Turn) (embedding : List Int) :
    MemoryStore :=
  { s with episodic := s.episodic ++ [⟨u, t.content, embedding⟩] }

/-- Projection of a fact record to its durable content (owner, key, value):
what "never deleted or overwritten in place" is measured on. -/
def factCore (r : FactRecord) : String × String × String :=
  (r.userId, r.key, r.value)

/-- Modelled from the spec: one retrieved (source, snippet, relevance score)
tuple (§4.3). -/
structure Snippet where
  source : String
  text : String
  score : Int
  deriving Repr, DecidableEq

/-- Modelled from the spec: token accounting for context assembly; the token
count of a text is modelled as its length (§4.5 token budget). -/
def tokenCost (s : String) : Nat := s.length

/-- Deterministic greedy budget packing: items are taken in order while each
fits the remaining budget; assembly stops at the first item that does not
fit (no randomness in truncation). -/
def fitBudget {α : Type} (cost : α → Nat) : Nat → List α → List α
  | _, [] => []
  | budget, x :: xs =>
      if cost x ≤ budget then x :: fitBudget cost (budget - cost x) xs else []

/-- Modelled from the spec: the Context Assembler's input — RetrievalResult,
fact set, short-term buffer (oldest first), episodic matches, token budget
(§4.5). -/
structure AssemblerInput where
  userMessage : String
  shortTerm : List String
  facts : List String
  retrieval : List Snippet
  episodic : List Snippet
  budget : Nat
  deriving Repr, DecidableEq

/-- The Context Assembler's output: one assembled context (as its ordered
parts) plus the list of source attributions used (§4.5). -/
structure AssembledContext where
  parts : List String
  attributions : List String
  deriving Repr, DecidableEq

/-- Modelled from the spec: the Context Assembler (§4.5).  Order of
precedence under the budget: the current user message is always included,
then (1) short-term buffer most recent first, (2) facts, (3) top-ranked
retrieval/episodic snippets by relevance score descending, until the
budget is exhausted.  Pure and deterministic by construction. -/
def assembleContext (inp : AssemblerInput) : AssembledContext :=
  let afterMsg := inp.budget - tokenCost inp.userMessage
  let stmParts := fitBudget tokenCost afterMsg inp.shortTerm.reverse
  let afterStm := afterMsg - (stmParts.map tokenCost).sum
  let factParts := fitBudget tokenCost afterStm inp.facts
  let afterFacts := afterStm - (factParts.map tokenCost).sum
  let ranked := rankByScore (fun sn : Snippet => sn.score) (inp.retrieval ++ inp.episodic)
  let chosen := fitBudget (fun sn : Snippet => tokenCost sn.text) afterFacts ranked
  ⟨inp.userMessage :: (stmParts ++ (factParts ++ chosen.map (fun sn => sn.text))),
   chosen.map (fun sn => sn.source)⟩

/-- The single assembled context blob: the parts joined byte-identically. -/
def contextBlob (c : AssembledContext) : String :=
  String.intercalate "\n" c.parts

/-- Modelled from the spec: Router intent tags (§4.1). -/
inductive Intent
  | DIRECT
  | MEMORY_COMPLEX
  | TOOL
  deriving Repr, DecidableEq

/-- Modelled from the spec: the Orchestrator's states (§4.7). -/
inductive OrchState
  | RECEIVED
  | ROUTED
  | REFINING
  | RETRIEVING
  | ASSEMBLING
  | GENERATING
  | PERSISTING
  | COMPLETE
  | ERRORED
  deriving Repr, DecidableEq

/-- Outcome of one pre-generation stage: recoverable failures degrade in
place and stay on the happy path (§4.7), so only `ok` (including degraded)
versus unrecoverable `fatal` is distinguished. -/
inductive StageOutcome
  | ok
  | fatal
  deriving Repr, DecidableEq

/-- Outcome of the GENERATING stage: the Generator produced output, failed
unrecoverably (after retry exhaustion), or the caller cancelled the stream
before generation completed (§4.6, §5). -/
inductive GenOutcome
  | success (content : String)
  | fatal
  | cancelled
  deriving Repr, DecidableEq

/-- The environment of one Orchestrator run: the routed intent and each
stage's outcome. -/
structure TurnScript where
  intent : Intent
  refineOutcome : StageOutcome
  retrieveOutcome : StageOutcome
  assembleOutcome : StageOutcome
  genOutcome : GenOutcome
  deriving Repr, DecidableEq

/-- A record written into the memory tiers by PERSISTING: a completed turn
carries `some` content; the ERRORED failure record carries none (§4.7). -/
structure PersistedRecord where
  content : Option String
  deriving Repr, DecidableEq

/-- One Orchestrator run: the sequence of states entered and the records
written into the memory tiers. -/
structure OrchRun where
  trace : List OrchState
  persisted : List PersistedRecord
  deriving Repr, DecidableEq

/-- Modelled from the spec: the GENERATING → PERSISTING → COMPLETE tail of
the state machine; generation failure goes to ERRORED which still attempts
persisting a failure record with no content; caller cancellation before
GENERATING completes abandons the turn without entering PERSISTING
(§4.7, §5). -/
def genPhase (g : GenOutcome) (pre : List OrchState) : OrchRun :=
  match g with
  | .success c => ⟨pre ++ [.GENERATING, .PERSISTING, .COMPLETE], [⟨some c⟩]⟩
  | .fatal => ⟨pre ++ [.GENERATING, .ERRORED], [⟨none⟩]⟩
  | .cancelled => ⟨pre ++ [.GENERATING], []⟩

/-- Modelled from the spec: one pre-generation stage: on unrecoverable
failure the machine transitions to ERRORED, which still attempts persisting
the failure record with no content (§4.7). -/
def runStage (st : OrchState) (o : StageOutcome)
    (cont : List OrchState → OrchRun) (pre : List OrchState) : OrchRun :=
  match o with
  | .ok => cont (pre ++ [st])
  | .fatal => ⟨pre ++ [st, .ERRORED], [⟨none⟩]⟩

/-- Modelled from the spec: the Orchestrator state machine (§4.7):
RECEIVED → ROUTED always; then directly to GENERATING for DIRECT, through
REFINING → RETRIEVING → ASSEMBLING for MEMORY_COMPLEX, skipping refinement
for TOOL. -/
def runOrchestrator (s : TurnScript) : OrchRun :=
  let pre := [OrchState.RECEIVED, OrchState.ROUTED]
  match s.intent with
  | .DIRECT => genPhase s.genOutcome pre
  | .MEMORY_COMPLEX =>
      runStage .REFINING s.refineOutcome
        (runStage .RETRIEVING s.retrieveOutcome
          (runStage .ASSEMBLING s.assembleOutcome (genPhase s.genOutcome))) pre
  | .TOOL =>
      runStage .RETRIEVING s.retrieveOutcome
        (runStage .ASSEMBLING s.assembleOutcome (genPhase s.genOutcome)) pre

/-- Modelled from the spec: the typed generation failure surfaced to the
caller after retry exhaustion (§4.6, §7), carrying the number of attempts
made. -/
inductive GenError
  | GenerationFailure (attemptsMade : Nat)
  deriving Repr, DecidableEq

/-- Modelled from the spec: exponential backoff delay before re-attempting
the upstream model call (§4.6). -/
def backoffDelay (base : Nat) (attempt : Nat) : Nat :=
  base * 2 ^ attempt

/-- One Generator Agent invocation: the caller-visible outcome, the backoff
waits performed, and how many Turns were persisted for it. -/
structure RetryRun where
  outcome : Except GenError String
  delays : List Nat
  turnsPersisted : Nat

/-- Modelled from the spec: the retry loop of the Generator Agent — attempt
the upstream call; on failure wait an exponential backoff and retry, up to
the fixed attempt limit (the fuel); on success persist exactly one Turn
and surface only that attempt's content (§4.6).  `upstream i` is the
upstream model's response to attempt `i` (`none` = failure). -/
def attemptGeneration (base : Nat) (upstream : Nat → Option String) :
    Nat → Nat → RetryRun
  | attempt, 0 => ⟨.error (.GenerationFailure attempt), [], 0⟩
  | attempt, fuel + 1 =>
      match upstream attempt with
      | some c => ⟨.ok c, [], 1⟩
      | none =>
          match fuel with
          | 0 => ⟨.error (.GenerationFailure (attempt + 1)), [], 0⟩
          | _ + 1 =>
              let r := attemptGeneration base upstream (attempt + 1) fuel
              ⟨r.outcome, backoffDelay base attempt :: r.delays, r.turnsPersisted⟩

/-- Modelled from the spec: generate with bounded exponential-backoff retry
up to a fixed attempt limit (§4.6). -/
def generateWithRetry (base limit : Nat) (upstream : Nat → Option String) : RetryRun :=
  attemptGeneration base upstream 0 limit

/-- Modelled from the spec: one retrieval source invocation — its latency
and its response (`none` = the source failed) (§4.3). -/
structure SourceCall where
  name : String
  latency : Nat
  response : Option (List Snippet)
  deriving Repr, DecidableEq

/-- Modelled from the spec: a source contributes to the RetrievalResult iff
it responded and did so within the per-branch time budget (§4.3). -/
def sourceDelivers (budget : Nat) (s : SourceCall) : Bool :=
  s.response.isSome && decide (s.latency ≤ budget)

/-- The instant a source branch settles: when its call returns, or at its
time budget if it is still running then (timed out). -/
def sourceSettleTime (budget : Nat) (s : SourceCall) : Nat :=
  min s.latency budget

/-- Modelled from the spec: concurrent fan-out over the sources with a
per-branch time budget; collects the delivered snippets and the fan-in
barrier instant at which every branch has either returned or timed out
(§4.3, §5). -/
def gatherSources (budget : Nat) : List SourceCall → List Snippet × Nat
  | [] => ([], 0)
  | s :: rest =>
      let (acc, t) := gatherSources budget rest
      if sourceDelivers budget s then
        (s.response.getD [] ++ acc, max (sourceSettleTime budget s) t)
      else
        (acc, max (sourceSettleTime budget s) t)

/-- One Retrieval Layer run: the partial RetrievalResult, the barrier
instant after which the Context Assembler may begin, and the total elapsed
time, capped by the aggregate timeout. -/
structure RetrievalRun where
  result : List Snippet
  barrier : Nat
  totalTime : Nat
  deriving Repr, DecidableEq

/-- Modelled from the spec: the Retrieval Layer call — each source bounded
by its individual timeout and by the aggregate timeout, failing or slow
sources excluded from the result, remaining sources kept (§4.3). -/
def retrieveAll (perTimeout aggTimeout : Nat) (sources : List SourceCall) : RetrievalRun :=
  let branchBudget := min perTimeout aggTimeout
  let gathered := gatherSources branchBudget sources
  ⟨gathered.1, gathered.2, min gathered.2 aggTimeout⟩

/-- Modelled from the spec: the Persistence step settling a completed Turn
into all three memory tiers: short-term append, fact upserts for the facts
extracted from the turn, episodic indexing (§2 step 7, §3). -/
def settleTurn (cap : Nat) (store : MemoryStore) (u sessionId : String) (t : Turn)
    (statedFacts : List MemoryFact) (embedding : List Int) : MemoryStore :=
  indexEpisodic
    (statedFacts.foldl (fun st f => upsertFact st u f)
      (appendShortTerm cap store sessionId t))
    u t embedding

/-- Rendering of a current fact into the assembled context. -/
def renderFact (r : FactRecord) : String :=
  r.key ++ ": " ++ r.value

/-- Modelled from the spec: answering a message in a session — the context
is assembled from the session's short-term buffer, the user's current
facts, and episodic matches for the query (§2 control flow, §4.5). -/
def respond (store : MemoryStore) (u sessionId : String) (message : String)
    (queryEmbedding : List Int) (budget : Nat) : AssembledContext :=
  assembleContext
    ⟨message,
     (getShortTerm store sessionId).map (fun t => t.content),
     (getFacts store u).map renderFact,
     [],
     (searchEpisodic store u queryEmbedding 5).map
       (fun r => ⟨"episodic", r.content, similarity queryEmbedding r.embedding⟩),
     budget⟩

end Pipeline

/-! ## Helper lemmas -/

namespace HeroSection

theorem flipWordsRun_currentIndex (words : List String) (n : Nat) :
    (flipWordsRun words n).currentIndex = n % words.length := by
  induction n with
  | zero =>
      simp [flipWordsRun, flipWordsInit]
  | succ n ih =>
      simp [flipWordsRun, flipWordsTick, ih, Nat.mod_add_mod]

theorem flipWordsRun_currentWord (words : List String) (n : Nat) :
    (flipWordsRun words n).currentWord = words[n % words.length]? := by
  cases n with
  | zero =>
      simp [flipWordsRun, flipWordsInit]
  | succ n =>
      simp [flipWordsRun, flipWordsTick, flipWordsRun_currentIndex,
        Nat.mod_add_mod]

end HeroSection

namespace Pipeline

theorem bufferAppend_eq_drop (cap : Nat) (buf : List Turn) (t : Turn) :
    bufferAppend cap buf t = (buf ++ [t]).drop (buf.length + 1 - cap) := by
  unfold bufferAppend
  simp only [List.length_append, List.length_cons, List.length_nil]
  split
  · rfl
  · rename_i h
    have h0 : buf.length + 1 - cap = 0 := by omega
    simp [h0]

theorem stmFold_eq_drop (cap : Nat) (ts : List Turn) :
    List.foldl (bufferAppend cap) [] ts = ts.drop (ts.length - cap) := by
  induction ts using List.reverseRecOn with
  | nil => simp
  | append_singleton l t ih =>
      rw [List.foldl_concat, ih, bufferAppend_eq_drop, List.length_drop,
        ← List.drop_append_of_le_length (Nat.sub_le l.length cap),
        List.drop_drop]
      congr 1
      simp only [List.length_append, List.length_cons, List.length_nil]
      omega

theorem currentValuesFor_eq_filter (s : MemoryStore) (u k : String) :
    currentValuesFor s u k =
      (s.facts.filter
          (fun r => r.key == k && (r.userId == u && r.supersededBy.isNone))).map
        (fun r => r.value) := by
  simp [currentValuesFor, getFacts, List.filter_filter]

theorem marked_no_current (l : List FactRecord) (u k : String) (n : Nat) :
    (l.map (markSuperseded u k n)).filter
        (fun r => r.key == k && (r.userId == u && r.supersededBy.isNone)) = [] := by
  induction l with
  | nil => rfl
  | cons r l ih =>
      by_cases h1 : r.userId = u <;> by_cases h2 : r.key = k <;>
        by_cases h3 : r.supersededBy = none <;>
          simp [markSuperseded, List.filter_cons, h1, h2, h3, beq_iff_eq,
            Option.isNone_iff_eq_none, ih]

theorem marked_filter_other (l : List FactRecord) (u k u' k' : String) (n : Nat)
    (h : ¬(u' = u ∧ k' = k)) :
    (l.map (markSuperseded u k n)).filter
        (fun r => r.key == k' && (r.userId == u' && r.supersededBy.isNone)) =
      l.filter (fun r => r.key == k' && (r.userId == u' && r.supersededBy.isNone)) := by
  induction l with
  | nil => rfl
  | cons r l ih =>
      by_cases h1 : r.userId = u <;> by_cases h2 : r.key = k <;>
        by_cases h3 : r.supersededBy = none <;>
          simp [markSuperseded, List.filter_cons, h1, h2, h3, beq_iff_eq,
            Option.isNone_iff_eq_none, ih]
      rw [if_neg fun hx => h ⟨hx.2.symm, hx.1.symm⟩]

theorem currentValuesFor_upsert_self (s : MemoryStore) (u : String) (f : MemoryFact) :
    currentValuesFor (upsertFact s u f) u f.key = [f.value] := by
  rw [currentValuesFor_eq_filter]
  simp [upsertFact, List.filter_append, marked_no_current]

theorem currentValuesFor_upsert_other (s : MemoryStore) (u : String) (f : MemoryFact)
    (u' k' : String) (h : ¬(u' = u ∧ k' = f.key)) :
    currentValuesFor (upsertFact s u f) u' k' = currentValuesFor s u' k' := by
  rw [currentValuesFor_eq_filter, currentValuesFor_eq_filter]
  simp only [upsertFact, List.filter_append, List.map_append,
    marked_filter_other s.facts u f.key u' k' s.facts.length h]
  simp [List.filter_cons, beq_iff_eq]
  intro hk hu
  exact h ⟨hu.symm, hk.symm⟩

theorem upsertFact_preserves_history (s : MemoryStore) (u : String) (f : MemoryFact) :
    (upsertFact s u f).facts.map factCore =
      s.facts.map factCore ++ [(u, f.key, f.value)] := by
  simp only [upsertFact, List.map_append, List.map_map, List.map_cons, List.map_nil]
  have h1 : s.facts.map (factCore ∘ markSuperseded u f.key s.facts.length) =
      s.facts.map factCore :=
    List.map_congr_left (fun r _ => by
      simp only [Function.comp_apply, factCore, markSuperseded]
      split <;> rfl)
  rw [h1]
  rfl

theorem applyUpserts_concat (ups : List UpsertCall) (c : UpsertCall) :
    applyUpserts (ups ++ [c]) = upsertFact (applyUpserts ups) c.userId c.fact := by
  simp [applyUpserts, List.foldl_concat]

theorem lastUpsertValue_concat_match (ups : List UpsertCall) (c : UpsertCall)
    (u k : String) (h : c.userId = u ∧ c.fact.key = k) :
    lastUpsertValue (ups ++ [c]) u k = some c.fact.value := by
  simp [lastUpsertValue, List.filter_append, List.filter_cons, h.1, h.2,
    List.getLast?_concat]

theorem lastUpsertValue_concat_other (ups : List UpsertCall) (c : UpsertCall)
    (u k : String) (h : ¬(c.userId = u ∧ c.fact.key = k)) :
    lastUpsertValue (ups ++ [c]) u k = lastUpsertValue ups u k := by
  have hc : ¬((c.userId == u) && (c.fact.key == k)) = true := by
    simp [beq_iff_eq]
    intro hu hk
    exact h ⟨hu, hk⟩
  simp [lastUpsertValue, List.filter_append, List.filter_cons, hc]

theorem currentValues_eq_lastUpsert (ups : List UpsertCall) (u k : String) :
    currentValuesFor (applyUpserts ups) u k = (lastUpsertValue ups u k).toList := by
  induction ups using List.reverseRecOn with
  | nil => rfl
  | append_singleton l c ih =>
      rw [applyUpserts_concat]
      by_cases h : c.userId = u ∧ c.fact.key = k
      · obtain ⟨h1, h2⟩ := h
        subst h1
        subst h2
        rw [currentValuesFor_upsert_self,
          lastUpsertValue_concat_match l c _ _ ⟨rfl, rfl⟩]
        rfl
      · have h' : ¬(u = c.userId ∧ k = c.fact.key) := by
          intro hx
          exact h ⟨hx.1.symm, hx.2.symm⟩
        rw [currentValuesFor_upsert_other _ _ _ _ _ h', ih,
          lastUpsertValue_concat_other l c u k h]

theorem mem_insertRanked {α : Type} (score : α → Int) (r a : α)
    (l : List α) (h : a ∈ insertRanked score r l) : a = r ∨ a ∈ l := by
  induction l with
  | nil =>
      simp only [insertRanked, List.mem_singleton] at h
      exact Or.inl h
  | cons x xs ih =>
      simp only [insertRanked] at h
      split at h
      · simpa using h
      · rcases List.mem_cons.mp h with h1 | h2
        · exact Or.inr (List.mem_cons.mpr (Or.inl h1))
        · rcases ih h2 with h3 | h4
          · exact Or.inl h3
          · exact Or.inr (List.mem_cons.mpr (Or.inr h4))

theorem mem_rankByScore {α : Type} (score : α → Int) (a : α)
    (l : List α) (h : a ∈ rankByScore score l) : a ∈ l := by
  induction l with
  | nil => simp [rankByScore] at h
  | cons x xs ih =>
      simp only [rankByScore] at h
      rcases mem_insertRanked score x a _ h with h1 | h2
      · exact h1 ▸ List.mem_cons_self x xs
      · exact List.mem_cons.mpr (Or.inr (ih h2))

theorem attemptGeneration_step (base : Nat) (upstream : Nat → Option String)
    (attempt f : Nat) (h0 : upstream attempt = none) :
    attemptGeneration base upstream attempt (f + 2) =
      ⟨(attemptGeneration base upstream (attempt + 1) (f + 1)).outcome,
        backoffDelay base attempt ::
          (attemptGeneration base upstream (attempt + 1) (f + 1)).delays,
        (attemptGeneration base upstream (attempt + 1) (f + 1)).turnsPersisted⟩ := by
  conv_lhs => rw [attemptGeneration]
  rw [h0]

theorem attemptGeneration_first_success (base : Nat) (upstream : Nat → Option String) :
    ∀ (fuel i attempt : Nat) (c : String), i < fuel →
      (∀ j, j < i → upstream (attempt + j) = none) →
      upstream (attempt + i) = some c →
      (attemptGeneration base upstream attempt fuel).outcome = .ok c ∧
      (attemptGeneration base upstream attempt fuel).delays =
        (List.range i).map (fun j => backoffDelay base (attempt + j)) ∧
      (attemptGeneration base upstream attempt fuel).turnsPersisted = 1 := by
  intro fuel
  induction fuel with
  | zero => intro i attempt c hi; omega
  | succ f ih =>
      intro i attempt c hi hprev hsucc
      cases i with
      | zero =>
          rw [Nat.add_zero] at hsucc
          simp [attemptGeneration, hsucc]
      | succ i' =>
          have h0 : upstream attempt = none := by
            have h := hprev 0 (Nat.succ_pos i')
            rwa [Nat.add_zero] at h
          cases f with
          | zero => omega
          | succ f' =>
              have hrec := ih i' (attempt + 1) c (by omega)
                (fun j hj => by
                  have h := hprev (j + 1) (by omega)
                  rwa [show attempt + (j + 1) = attempt + 1 + j by omega] at h)
                (by rwa [show attempt + (i' + 1) = attempt + 1 + i' by omega] at hsucc)
              rw [attemptGeneration_step base upstream attempt f' h0]
              refine ⟨hrec.1, ?_, hrec.2.2⟩
              rw [hrec.2.1, List.range_succ_eq_map, List.map_cons, List.map_map]
              simp only [Nat.add_zero]
              congr 1
              exact List.map_congr_left fun a ha => by
                simp only [Function.comp_apply]
                congr 1
                omega

theorem attemptGeneration_all_fail (base : Nat) (upstream : Nat → Option String) :
    ∀ (fuel attempt : Nat),
      (∀ j, j < fuel → upstream (attempt + j) = none) →
      (attemptGeneration base upstream attempt fuel).outcome =
          .error (.GenerationFailure (attempt + fuel)) ∧
      (attemptGeneration base upstream attempt fuel).delays =
        (List.range (fuel - 1)).map (fun j => backoffDelay base (attempt + j)) ∧
      (attemptGeneration base upstream attempt fuel).turnsPersisted = 0 := by
  intro fuel
  induction fuel with
  | zero => intro attempt h; simp [attemptGeneration]
  | succ f ih =>
      intro attempt h
      have h0 : upstream attempt = none := by
        have hx := h 0 (Nat.succ_pos f)
        rwa [Nat.add_zero] at hx
      cases f with
      | zero => simp [attemptGeneration, h0]
      | succ f' =>
          have hrec := ih (attempt + 1) (fun j hj => by
            have hx := h (j + 1) (by omega)
            rwa [show attempt + (j + 1) = attempt + 1 + j by omega] at hx)
          rw [attemptGeneration_step base upstream attempt f' h0]
          refine ⟨?_, ?_, hrec.2.2⟩
          · rw [hrec.1, show attempt + 1 + (f' + 1) = attempt + (f' + 1 + 1) by omega]
          · rw [hrec.2.1]
            simp only [Nat.add_sub_cancel]
            rw [List.range_succ_eq_map, List.map_cons, List.map_map]
            simp only [Nat.add_zero]
            congr 1
            exact List.map_congr_left fun a ha => by
              simp only [Function.comp_apply]
              congr 1
              omega

theorem gatherSources_result (budget : Nat) (sources : List SourceCall) :
    (gatherSources budget sources).1 =
      (sources.filter (sourceDelivers budget)).flatMap (fun s => s.response.getD []) := by
  induction sources with
  | nil => rfl
  | cons s rest ih =>
      by_cases hd : sourceDelivers budget s = true <;>
        simp [gatherSources, List.filter_cons, hd, ih]

theorem gatherSources_barrier_ge (budget : Nat) (sources : List SourceCall) :
    ∀ s ∈ sources, sourceSettleTime budget s ≤ (gatherSources budget sources).2 := by
  induction sources with
  | nil => intro s hs; exact absurd hs (List.not_mem_nil s)
  | cons x rest ih =>
      intro s hs
      rcases List.mem_cons.mp hs with h1 | h2
      · subst h1
        by_cases hd : sourceDelivers budget s = true <;>
          simp [gatherSources, hd, Nat.le_max_left]
      · have h3 := ih s h2
        by_cases hd : sourceDelivers budget x = true <;>
          simp [gatherSources, hd] <;> omega

theorem gatherSources_barrier_le (budget : Nat) (sources : List SourceCall) :
    (gatherSources budget sources).2 ≤ budget := by
  induction sources with
  | nil => simp [gatherSources]
  | cons x rest ih =>
      by_cases hd : sourceDelivers budget x = true <;>
        simp [gatherSources, hd, sourceSettleTime] <;> omega

end Pipeline

/-! ## Claim theorems -/

/-- C9: for every non-empty `words` array given to `FlipWords`, the word
displayed after `n` timer ticks is `words[n % words.length]`: the component
cycles through the array in order, wrapping after the last word, and the
index used is always in bounds. -/
theorem C9_flipWords_cycles (words : List String) (n : Nat) (h : words ≠ []) :
    n % words.length < words.length ∧
    (HeroSection.flipWordsRun words n).currentWord =
      some (words.get ⟨n % words.length, Nat.mod_lt n (List.length_pos.mpr h)⟩) := by
  have hpos : 0 < words.length := List.length_pos.mpr h
  refine ⟨Nat.mod_lt n hpos, ?_⟩
  rw [HeroSection.flipWordsRun_currentWord]
  rw [List.getElem?_eq_getElem (Nat.mod_lt n hpos)]
  simp [List.get_eq_getElem]

/-- Witness for C9 at a concrete input. -/
theorem C9_flipWords_cycles_witness :
    ["Everything.", "Stocks.", "Code.", "News.", "Reasoning."] ≠ ([] : List String) ∧
    (HeroSection.flipWordsRun
        ["Everything.", "Stocks.", "Code.", "News.", "Reasoning."] 7).currentWord =
      some "Code." := by
  refine ⟨by decide, ?_⟩
  have h := C9_flipWords_cycles
    ["Everything.", "Stocks.", "Code.", "News.", "Reasoning."] 7 (by decide)
  simpa using h.2

/-- C10: `BentoGridSection` renders exactly one `BentoCard` per entry of its
`features` array, in array order, passing each entry's title, description,
icon and className through unchanged. -/
theorem C10_bentoGrid_renders_features :
    BentoGrid.bentoGridCards.length = BentoGrid.features.length ∧
    ∀ i : Fin BentoGrid.features.length,
      BentoGrid.bentoGridCards[i.val]? =
        some ⟨(BentoGrid.features.get i).title,
              (BentoGrid.features.get i).description,
              (BentoGrid.features.get i).icon,
              (BentoGrid.features.get i).className⟩ := by
  constructor
  · simp [BentoGrid.bentoGridCards]
  · intro i
    fin_cases i <;> rfl

/-- C1: every record returned by `searchEpisodic(u, queryEmbedding, k)`
belongs to user `u`, and `getFacts(u)` likewise returns only records owned
by `u`: Memory Store Adapter reads are structurally tenant-scoped. -/
theorem C1_reads_are_tenant_scoped (s : Pipeline.MemoryStore) (u : String)
    (queryEmbedding : List Int) (k : Nat) :
    (∀ r ∈ Pipeline.searchEpisodic s u queryEmbedding k, r.userId = u) ∧
    (∀ fr ∈ Pipeline.getFacts s u, fr.userId = u) := by
  constructor
  · intro r hr
    unfold Pipeline.searchEpisodic at hr
    have h1 := List.mem_of_mem_take hr
    have h2 := Pipeline.mem_rankByScore _ _ _ h1
    have h3 := (List.mem_filter.mp h2).2
    simpa [beq_iff_eq] using h3
  · intro fr hfr
    have h3 := (List.mem_filter.mp hfr).2
    simp [beq_iff_eq] at h3
    exact h3.1

/-- Witness for C1 at a concrete two-tenant store. -/
theorem C1_reads_are_tenant_scoped_witness :
    ((⟨"u1", "hello", [1]⟩ : Pipeline.EpisodicRecord) ∈
        Pipeline.searchEpisodic
          ⟨fun _ => [], [], [⟨"u1", "hello", [1]⟩, ⟨"u2", "other", [2]⟩]⟩ "u1" [1] 5) ∧
    (⟨"u1", "hello", [1]⟩ : Pipeline.EpisodicRecord).userId = "u1" := by
  refine ⟨by decide, ?_⟩
  exact (C1_reads_are_tenant_scoped
      ⟨fun _ => [], [], [⟨"u1", "hello", [1]⟩, ⟨"u2", "other", [2]⟩]⟩ "u1" [1] 5).1
    ⟨"u1", "hello", [1]⟩ (by decide)

/-- C3: under any sequence of `appendShortTerm` calls the short-term buffer
never exceeds the configured cap, and eviction is strict-insertion-order
FIFO: the buffer is exactly the last `cap` appended turns, in order
(`drop (ts.length - cap)`); the store-level call applies this step to the
named session's buffer. -/
theorem C3_shortTerm_cap_fifo (cap : Nat) (ts : List Pipeline.Turn) :
    (∀ (s : Pipeline.MemoryStore) (sid : String) (t : Pipeline.Turn),
        Pipeline.getShortTerm (Pipeline.appendShortTerm cap s sid t) sid =
          Pipeline.bufferAppend cap (Pipeline.getShortTerm s sid) t) ∧
    (List.foldl (Pipeline.bufferAppend cap) [] ts).length ≤ cap ∧
    List.foldl (Pipeline.bufferAppend cap) [] ts = ts.drop (ts.length - cap) := by
  refine ⟨fun s sid t => by simp [Pipeline.getShortTerm, Pipeline.appendShortTerm],
    ?_, Pipeline.stmFold_eq_drop cap ts⟩
  rw [Pipeline.stmFold_eq_drop, List.length_drop]
  omega

/-- C4: `upsertFact` never deletes or overwrites a prior fact record in
place — it appends one record and preserves the owner/key/value of every
existing record — and after any history of upserts `getFacts` yields, per
factual key, exactly the value of the most recent non-superseded upsert. -/
theorem C4_upsertFact_append_only :
    (∀ (s : Pipeline.MemoryStore) (u : String) (f : Pipeline.MemoryFact),
        (Pipeline.upsertFact s u f).facts.length = s.facts.length + 1 ∧
        (Pipeline.upsertFact s u f).facts.map Pipeline.factCore =
          s.facts.map Pipeline.factCore ++ [(u, f.key, f.value)]) ∧
    (∀ (ups : List Pipeline.UpsertCall) (u k : String),
        Pipeline.currentValuesFor (Pipeline.applyUpserts ups) u k =
          (Pipeline.lastUpsertValue ups u k).toList) := by
  refine ⟨fun s u f => ⟨?_, Pipeline.upsertFact_preserves_history s u f⟩,
    fun ups u k => Pipeline.currentValues_eq_lastUpsert ups u k⟩
  simp [Pipeline.upsertFact]

/-- C2: in every Orchestrator run, a Turn with content is persisted only
when the Generator produced exactly that output; PERSISTING is entered only
after a successful generation; cancelling before GENERATING completes means
PERSISTING is never entered and nothing is persisted; ERRORED still
attempts persisting a failure record with no content. -/
theorem C2_persist_only_after_generation (s : Pipeline.TurnScript) :
    (∀ r ∈ (Pipeline.runOrchestrator s).persisted, ∀ c, r.content = some c →
        s.genOutcome = Pipeline.GenOutcome.success c) ∧
    (Pipeline.OrchState.PERSISTING ∈ (Pipeline.runOrchestrator s).trace →
        ∃ c, s.genOutcome = Pipeline.GenOutcome.success c) ∧
    (s.genOutcome = Pipeline.GenOutcome.cancelled →
        Pipeline.OrchState.GENERATING ∈ (Pipeline.runOrchestrator s).trace →
        Pipeline.OrchState.PERSISTING ∉ (Pipeline.runOrchestrator s).trace ∧
        (Pipeline.runOrchestrator s).persisted = []) ∧
    (Pipeline.OrchState.ERRORED ∈ (Pipeline.runOrchestrator s).trace →
        (Pipeline.runOrchestrator s).persisted = [⟨none⟩]) := by
  obtain ⟨i, rf, rt, asm, g⟩ := s
  cases i <;> cases rf <;> cases rt <;> cases asm <;> cases g <;>
    simp [Pipeline.runOrchestrator, Pipeline.runStage, Pipeline.genPhase]

/-- Witness for C2: a cancelled DIRECT turn never enters PERSISTING and
persists nothing. -/
theorem C2_persist_only_after_generation_witness :
    (Pipeline.TurnScript.mk Pipeline.Intent.DIRECT Pipeline.StageOutcome.ok
        Pipeline.StageOutcome.ok Pipeline.StageOutcome.ok
        Pipeline.GenOutcome.cancelled).genOutcome = Pipeline.GenOutcome.cancelled ∧
    (Pipeline.OrchState.PERSISTING ∉
        (Pipeline.runOrchestrator ⟨Pipeline.Intent.DIRECT, Pipeline.StageOutcome.ok,
          Pipeline.StageOutcome.ok, Pipeline.StageOutcome.ok,
          Pipeline.GenOutcome.cancelled⟩).trace ∧
      (Pipeline.runOrchestrator ⟨Pipeline.Intent.DIRECT, Pipeline.StageOutcome.ok,
          Pipeline.StageOutcome.ok, Pipeline.StageOutcome.ok,
          Pipeline.GenOutcome.cancelled⟩).persisted = []) :=
  ⟨rfl, (C2_persist_only_after_generation _).2.2.1 rfl (by decide)⟩

/-- C5: the Context Assembler is a deterministic function — identical
inputs (RetrievalResult, facts, short-term buffer, episodic matches,
budget) give byte-identical assembled context and blob — and the current
user message is never dropped from the output. -/
theorem C5_assembler_deterministic (i j : Pipeline.AssemblerInput) (h : i = j) :
    Pipeline.assembleContext i = Pipeline.assembleContext j ∧
    Pipeline.contextBlob (Pipeline.assembleContext i) =
      Pipeline.contextBlob (Pipeline.assembleContext j) ∧
    i.userMessage ∈ (Pipeline.assembleContext i).parts := by
  subst h
  refine ⟨rfl, rfl, ?_⟩
  simp [Pipeline.assembleContext]

/-- Witness for C5 at a concrete input. -/
theorem C5_assembler_deterministic_witness :
    Pipeline.assembleContext ⟨"hi", [], [], [], [], 10⟩ =
        Pipeline.assembleContext ⟨"hi", [], [], [], [], 10⟩ ∧
    "hi" ∈ (Pipeline.assembleContext ⟨"hi", [], [], [], [], 10⟩).parts :=
  ⟨(C5_assembler_deterministic ⟨"hi", [], [], [], [], 10⟩ ⟨"hi", [], [], [], [], 10⟩ rfl).1,
   (C5_assembler_deterministic ⟨"hi", [], [], [], [], 10⟩ ⟨"hi", [], [], [], [], 10⟩ rfl).2.2⟩

/-- C6: the Generator retries with bounded exponential backoff up to the
fixed attempt limit; if attempt `i` is the first to succeed the caller
receives exactly that attempt's content (indistinguishable from an
immediately-succeeding run) and exactly one Turn is persisted; if all
attempts fail a typed GenerationFailure is surfaced and no Turn is
persisted. -/
theorem C6_generator_retry (base limit : Nat) (upstream : Nat → Option String) :
    (∀ i c, i < limit → (∀ j, j < i → upstream j = none) → upstream i = some c →
        (Pipeline.generateWithRetry base limit upstream).outcome = Except.ok c ∧
        (Pipeline.generateWithRetry base limit upstream).turnsPersisted = 1 ∧
        (Pipeline.generateWithRetry base limit upstream).delays =
          (List.range i).map (Pipeline.backoffDelay base) ∧
        (Pipeline.generateWithRetry base limit upstream).outcome =
          (Pipeline.generateWithRetry base limit (fun _ => some c)).outcome) ∧
    ((∀ j, j < limit → upstream j = none) →
        (Pipeline.generateWithRetry base limit upstream).outcome =
          Except.error (Pipeline.GenError.GenerationFailure limit) ∧
        (Pipeline.generateWithRetry base limit upstream).turnsPersisted = 0 ∧
        (Pipeline.generateWithRetry base limit upstream).delays =
          (List.range (limit - 1)).map (Pipeline.backoffDelay base)) := by
  constructor
  · intro i c hi hprev hsucc
    have h := Pipeline.attemptGeneration_first_success base upstream limit i 0 c hi
      (fun j hj => by simpa using hprev j hj) (by simpa using hsucc)
    refine ⟨h.1, h.2.2, ?_, ?_⟩
    · rw [show (Pipeline.generateWithRetry base limit upstream).delays =
          (Pipeline.attemptGeneration base upstream 0 limit).delays from rfl, h.2.1]
      exact List.map_congr_left fun a ha => by simp
    · rw [show (Pipeline.generateWithRetry base limit upstream).outcome =
          (Pipeline.attemptGeneration base upstream 0 limit).outcome from rfl, h.1]
      cases limit with
      | zero => omega
      | succ l =>
          have h2 := Pipeline.attemptGeneration_first_success base (fun _ => some c)
            (l + 1) 0 0 c (Nat.succ_pos l) (fun j hj => absurd hj (Nat.not_lt_zero j)) rfl
          exact h2.1.symm
  · intro hall
    have h := Pipeline.attemptGeneration_all_fail base upstream limit 0
      (fun j hj => by simpa using hall j hj)
    refine ⟨?_, h.2.2, ?_⟩
    · rw [show (Pipeline.generateWithRetry base limit upstream).outcome =
          (Pipeline.attemptGeneration base upstream 0 limit).outcome from rfl, h.1]
      simp
    · rw [show (Pipeline.generateWithRetry base limit upstream).delays =
          (Pipeline.attemptGeneration base upstream 0 limit).delays from rfl, h.2.1]
      exact List.map_congr_left fun a ha => by simp

/-- Witness for C6: with limit 3 and an upstream that fails on attempt 0
and succeeds on attempt 1, the caller receives attempt 1's content and
exactly one Turn is persisted. -/
theorem C6_generator_retry_witness :
    (1 < 3 ∧ (fun n => if n = 1 then some "answer" else none) 1 = some "answer") ∧
    (Pipeline.generateWithRetry 2 3
        (fun n => if n = 1 then some "answer" else none)).outcome = Except.ok "answer" ∧
    (Pipeline.generateWithRetry 2 3
        (fun n => if n = 1 then some "answer" else none)).turnsPersisted = 1 := by
  refine ⟨⟨by omega, rfl⟩, ?_⟩
  have h := (C6_generator_retry 2 3 (fun n => if n = 1 then some "answer" else none)).1
    1 "answer" (by omega)
    (fun j hj => by
      have hj0 : j = 0 := by omega
      subst hj0
      rfl)
    rfl
  exact ⟨h.1, h.2.1⟩

/-- C7: retrieval excludes failing or timed-out sources while keeping the
rest (the result is exactly the delivered sources' snippets), every source
branch is bounded by the individual timeout, the Context Assembler's
barrier lies after every branch has returned or timed out, and the whole
retrieval is bounded by the aggregate timeout. -/
theorem C7_retrieval_partial_results (perTimeout aggTimeout : Nat)
    (sources : List Pipeline.SourceCall) :
    (Pipeline.retrieveAll perTimeout aggTimeout sources).result =
        (sources.filter (Pipeline.sourceDelivers (min perTimeout aggTimeout))).flatMap
          (fun s => s.response.getD []) ∧
    (∀ s ∈ sources,
        Pipeline.sourceSettleTime (min perTimeout aggTimeout) s ≤
          (Pipeline.retrieveAll perTimeout aggTimeout sources).barrier) ∧
    (∀ s ∈ sources,
        Pipeline.sourceSettleTime (min perTimeout aggTimeout) s ≤ perTimeout) ∧
    (Pipeline.retrieveAll perTimeout aggTimeout sources).barrier ≤ aggTimeout ∧
    (Pipeline.retrieveAll perTimeout aggTimeout sources).totalTime ≤ aggTimeout := by
  have hle := Pipeline.gatherSources_barrier_le (min perTimeout aggTimeout) sources
  refine ⟨Pipeline.gatherSources_result (min perTimeout aggTimeout) sources,
    fun s hs => Pipeline.gatherSources_barrier_ge (min perTimeout aggTimeout) sources s hs,
    fun s hs => le_trans (Nat.min_le_right s.latency (min perTimeout aggTimeout))
      (Nat.min_le_left perTimeout aggTimeout),
    le_trans hle (Nat.min_le_right perTimeout aggTimeout),
    Nat.min_le_right (Pipeline.gatherSources (min perTimeout aggTimeout) sources).2 aggTimeout⟩

/-- Witness for C7: document search hangs past its timeout, web and tool
succeed — the turn's retrieval result holds exactly the web and tool
snippets, and the witness source's settle time is below the barrier. -/
theorem C7_retrieval_partial_results_witness :
    ((⟨"web", 3, some [⟨"web", "w", 2⟩]⟩ : Pipeline.SourceCall) ∈
        ([⟨"doc", 1000, some [⟨"doc", "d", 3⟩]⟩,
          ⟨"web", 3, some [⟨"web", "w", 2⟩]⟩,
          ⟨"tool", 5, some [⟨"tool", "t", 1⟩]⟩] : List Pipeline.SourceCall)) ∧
    Pipeline.sourceSettleTime (min 10 100)
        (⟨"web", 3, some [⟨"web", "w", 2⟩]⟩ : Pipeline.SourceCall) ≤
      (Pipeline.retrieveAll 10 100
          [⟨"doc", 1000, some [⟨"doc", "d", 3⟩]⟩, ⟨"web", 3, some [⟨"web", "w", 2⟩]⟩,
            ⟨"tool", 5, some [⟨"tool", "t", 1⟩]⟩]).barrier ∧
    (Pipeline.retrieveAll 10 100
        [⟨"doc", 1000, some [⟨"doc", "d", 3⟩]⟩, ⟨"web", 3, some [⟨"web", "w", 2⟩]⟩,
          ⟨"tool", 5, some [⟨"tool", "t", 1⟩]⟩]).result =
      [⟨"web", "w", 2⟩, ⟨"tool", "t", 1⟩] := by
  refine ⟨by decide, ?_, by decide⟩
  exact (C7_retrieval_partial_results 10 100 _).2.1 _ (by decide)

/-- C8: cross-session recall — after a turn stating fact `k = v` in session
A is settled into long-term memory, a question asked in a different session
B of the same user is answered over a context that contains the recorded
fact, even though session B's short-term buffer is empty. -/
theorem C8_cross_session_recall (cap : Nat) (u sessA sessB : String)
    (t : Pipeline.Turn) (k v : String) (embedding queryEmbedding : List Int)
    (question : String) (budget : Nat) (hsess : sessB ≠ sessA)
    (hbudget : Pipeline.tokenCost (k ++ ": " ++ v) ≤ budget - Pipeline.tokenCost question) :
    Pipeline.getShortTerm
        (Pipeline.settleTurn cap Pipeline.emptyStore u sessA t [⟨k, v⟩] embedding) sessB = [] ∧
    (k ++ ": " ++ v) ∈
      (Pipeline.respond
          (Pipeline.settleTurn cap Pipeline.emptyStore u sessA t [⟨k, v⟩] embedding)
          u sessB question queryEmbedding budget).parts := by
  have hstm : Pipeline.getShortTerm
      (Pipeline.settleTurn cap Pipeline.emptyStore u sessA t [⟨k, v⟩] embedding) sessB = [] := by
    simp [Pipeline.settleTurn, Pipeline.indexEpisodic, Pipeline.upsertFact,
      Pipeline.appendShortTerm, Pipeline.getShortTerm, Pipeline.emptyStore, hsess]
  refine ⟨hstm, ?_⟩
  have hfacts : Pipeline.getFacts
      (Pipeline.settleTurn cap Pipeline.emptyStore u sessA t [⟨k, v⟩] embedding) u =
      [⟨u, k, v, 0, none⟩] := by
    simp [Pipeline.settleTurn, Pipeline.indexEpisodic, Pipeline.upsertFact,
      Pipeline.appendShortTerm, Pipeline.getFacts, Pipeline.emptyStore]
  simp only [Pipeline.respond, hstm, hfacts]
  simp [Pipeline.assembleContext, Pipeline.renderFact, Pipeline.fitBudget, hbudget]

/-- Witness for C8: the proof.sh scenario — "My name is Ashish." settled in
session A; asking in session B finds the fact in the assembled context. -/
theorem C8_cross_session_recall_witness :
    ("B" ≠ "A") ∧
    (Pipeline.tokenCost ("name" ++ ": " ++ "Ashish") ≤
        100 - Pipeline.tokenCost "What is my name?") ∧
    Pipeline.getShortTerm
        (Pipeline.settleTurn 10 Pipeline.emptyStore "ashish" "A"
          ⟨"A", "My name is Ashish."⟩ [⟨"name", "Ashish"⟩] [1]) "B" = [] ∧
    ("name" ++ ": " ++ "Ashish") ∈
      (Pipeline.respond
          (Pipeline.settleTurn 10 Pipeline.emptyStore "ashish" "A"
            ⟨"A", "My name is Ashish."⟩ [⟨"name", "Ashish"⟩] [1])
          "ashish" "B" "What is my name?" [1] 100).parts := by
  refine ⟨by decide, by decide, ?_, ?_⟩
  · exact (C8_cross_session_recall 10 "ashish" "A" "B" ⟨"A", "My name is Ashish."⟩
      "name" "Ashish" [1] [1] "What is my name?" 100 (by decide) (by decide)).1
  · exact (C8_cross_session_recall 10 "ashish" "A" "B" ⟨"A", "My name is Ashish."⟩
      "name" "Ashish" [1] [1] "What is my name?" 100 (by decide) (by decide)).2
